import Mathlib

/-!
# zombie_simulator.c

A shallow embedding of `scripts/recovery/metrics/zombie_simulator.c` and
theorems about it.

The program is one function, `main`:

    int n = (argc > 1) ? atoi(argv[1]) : 1;
    printf("Parent PID: %d — creating %d zombie(s)\n", getpid(), n);
    for (int i = 0; i < n; i++) {
        pid_t pid = fork();
        if (pid == 0) { _exit(0); }
    }
    sleep(600);
    return 0;

A process is described by the sequence of library and system calls it makes
(`Event`).  What `fork` returns is not decided by the program, so it is an
input: an `Oracle` says, for every process and every loop iteration, what
the `fork` call of that iteration returns in the calling process.  A
positive value creates a child; the child is a copy of the caller that
continues from the same `fork` call with return value `0`.
-/

namespace ZombieSimulator

/-! ## The calls a process can make -/

/-- One call made by a process, with the value it returned where the program
looks at it.  `write` is the `write(1, …)` by which stdio hands buffered bytes
to standard output; `exit` is `return` from `main`; `wait` stands for the
whole `wait`/`waitpid`/`waitid` family. -/
inductive Event where
  | getpid (ret : Int)
  | printf (text : String)
  | write (bytes : String)
  | fork (ret : Int)
  | _exit (status : Int)
  | sleep (seconds : Nat)
  | exit (status : Int)
  | wait
  deriving DecidableEq, Repr

/-- The outcome of running one process from some program point to its end:
the calls it makes, in order, and every process created below it, each with
its process identifier and its own calls. -/
structure Run where
  calls : List Event
  spawned : List (Int × List Event)
  deriving DecidableEq, Repr

/-- What `fork` returns in the calling process: `o p k` is the value returned
by the `fork` call of loop iteration `k` in process `p`.  The original process
is `[]`; the child it creates in iteration `k` is `[k]`, a child of that one
created in iteration `j` would be `[j, k]`. -/
abbrev Oracle := List Nat → Nat → Int

/-! ## `atoi` (libc) -/

/-- The C locale's `isspace`. -/
def isspace (c : Char) : Bool :=
  c = ' ' || c = '\t' || c = '\n' || c = '\x0b' || c = '\x0c' || c = '\r'

/-- The C locale's `isdigit`. -/
def isdigit (c : Char) : Bool :=
  decide ('0' ≤ c) && decide (c ≤ '9')

/-- The value of the longest prefix of decimal digits, accumulated onto `acc`. -/
def digitsValue : Nat → List Char → Nat
  | acc, [] => acc
  | acc, c :: cs =>
    if isdigit c then digitsValue (acc * 10 + (c.toNat - 48)) cs else acc

/-- The least value of `int` (32 bits). -/
def INT_MIN : Int := -2147483648

/-- The greatest value of `int` (32 bits). -/
def INT_MAX : Int := 2147483647

/-- The least value of `long` (64 bits). -/
def LONG_MIN : Int := -9223372036854775808

/-- The greatest value of `long` (64 bits). -/
def LONG_MAX : Int := 9223372036854775807

/-- The conversion `strtol(s, NULL, 10)`: leading white space is skipped, one
sign is accepted, the longest run of digits is converted (none gives 0), and
a value out of the range of `long` is replaced by the nearest bound. -/
def strtol10 (s : List Char) : Int :=
  let v : Int :=
    match s.dropWhile isspace with
    | '-' :: r => -(digitsValue 0 r : Int)
    | '+' :: r => (digitsValue 0 r : Int)
    | r => (digitsValue 0 r : Int)
  if v < LONG_MIN then LONG_MIN else if LONG_MAX < v then LONG_MAX else v

/-- The conversion of a `long` to `int` (two's complement, 32 bits). -/
def toInt32 (v : Int) : Int :=
  (v + 2147483648) % 4294967296 - 2147483648

/-- The function `atoi(s)`, which is `(int) strtol(s, NULL, 10)`.  For a
numeral outside the range of `int` the C standard leaves the result open;
this is what glibc on an LP64 platform returns. -/
def atoi (s : String) : Int :=
  toInt32 (strtol10 s.data)

/-! ## stdio on standard output -/

/-- Splits pending output after its last newline: the part that a
line-buffered stream writes, and the part it keeps. -/
def splitAfterLastNewline (cs : List Char) : List Char × List Char :=
  let r := cs.reverse
  ((r.dropWhile (fun c => c != '\n')).reverse, (r.takeWhile (fun c => c != '\n')).reverse)

/-- The call `printf` on standard output with the bytes `text` (the format
already expanded), when `buf` is pending in the stream's buffer.  Returns the
calls made and the bytes pending afterwards.  When standard output is a
terminal (`tty`) the stream is line buffered and everything up to the last
newline is written at once; otherwise it is fully buffered and the bytes stay
pending (the one line of this program is far shorter than the buffer). -/
def stdio_printf (tty : Bool) (buf : String) (text : String) : List Event × String :=
  let pending := buf ++ text
  if tty then
    let p := splitAfterLastNewline pending.data
    (Event.printf text :: (if p.1 = [] then [] else [Event.write (String.mk p.1)]),
      String.mk p.2)
  else
    ([Event.printf text], pending)

/-- The stdio part of `exit`: pending output is written.  `_exit` does not
do this. -/
def stdio_exit (buf : String) : List Event :=
  if buf = "" then [] else [Event.write buf]

/-! ## `main` -/

/-- The expansion of `"Parent PID: %d — creating %d zombie(s)\n"`. -/
def announcement (pid : Int) (n : Int) : String :=
  "Parent PID: " ++ toString pid ++ " — creating " ++ toString n ++ " zombie(s)\n"

/-- The statement `if (pid == 0) { _exit(0); }` of the loop body, run by a
process in which `fork` has just returned `pid`; `next` is what this process
does when it goes on to `i++` and the loop test. -/
def afterFork (pid : Int) (next : Unit → Run) : Run :=
  if pid == 0 then ⟨[Event._exit 0], []⟩ else next ()

/-- The loop `for (int i = 0; i < n; i++) { … }` from its test onwards,
followed by `sleep(600); return 0;`, run by process `me` with `buf` pending
on standard output.  A `fork` that returns a positive value has created a
child: it has the same `n`, `i` and `buf`, and runs the rest of the loop body
with `pid == 0`.  The increment `i++` is done only where `i < n`, and `n` is
an `int` (`count_range`), so it does not overflow and `i + 1` is exact. -/
def forLoop (o : Oracle) (me : List Nat) (buf : String) (n : Int) (i : Int) : Run :=
  if i < n then
    let pid := o me i.toNat
    let mine := afterFork pid (fun _ => forLoop o me buf n (i + 1))
    if 0 < pid then
      let child := afterFork 0 (fun _ => forLoop o (i.toNat :: me) buf n (i + 1))
      ⟨Event.fork pid :: mine.calls, (pid, child.calls) :: (child.spawned ++ mine.spawned)⟩
    else
      ⟨Event.fork pid :: mine.calls, mine.spawned⟩
  else
    ⟨Event.sleep 600 :: (stdio_exit buf ++ [Event.exit 0]), []⟩
termination_by (n - i).toNat
decreasing_by all_goals omega

/-- The value of `n`: `(argc > 1) ? atoi(argv[1]) : 1`, with `argc` the
length of `argv`. -/
def count (argv : List String) : Int :=
  if h : 1 < argv.length then atoi argv[1] else 1

/-- The function `main`, run by the original process: `argv` is the argument
vector, `pid` what `getpid()` returns, `tty` whether standard output is a
terminal, `o` the results of `fork`. -/
def main (argv : List String) (pid : Int) (tty : Bool) (o : Oracle) : Run :=
  let n := count argv
  let p := stdio_printf tty "" (announcement pid n)
  let r := forLoop o [] p.2 n 0
  ⟨Event.getpid pid :: (p.1 ++ r.calls), r.spawned⟩

/-! ## What is observed of a run -/

/-- The values returned by the `fork` calls among `es`, in order. -/
def forkCalls : List Event → List Int
  | [] => []
  | Event.fork r :: es => r :: forkCalls es
  | _ :: es => forkCalls es

/-- The bytes handed to standard output by the calls `es`, in order. -/
def written : List Event → List String
  | [] => []
  | Event.write b :: es => b :: written es
  | _ :: es => written es

/-- Everything that reaches standard output in a run: what the original
process writes, and what the processes created in the run write. -/
def Run.output (r : Run) : String :=
  String.join (written r.calls ++ (r.spawned.map (fun c => written c.2)).flatten)

/-- A call after which the process no longer exists. -/
def Event.terminates : Event → Bool
  | Event.exit _ => true
  | Event._exit _ => true
  | _ => false

/-- Whether the call is a `fork`. -/
def Event.isFork : Event → Bool
  | Event.fork _ => true
  | _ => false

/-- The calls made before the first `fork`. -/
def beforeFirstFork (es : List Event) : List Event :=
  es.takeWhile (fun e => !e.isFork)

/-- The call with what `fork` returned left out. -/
def Event.forget : Event → Event
  | Event.fork _ => Event.fork 0
  | e => e

/-- An argument in which `atoi` finds no number: after leading white space and
one optional sign there is no decimal digit. -/
def nonNumeric (arg : String) : Bool :=
  match arg.data.dropWhile isspace with
  | '-' :: r => !(r.head?.any isdigit)
  | '+' :: r => !(r.head?.any isdigit)
  | r => !(r.head?.any isdigit)

/-! ## The loop -/

theorem afterFork_zero (next : Unit → Run) : afterFork 0 next = ⟨[Event._exit 0], []⟩ := by
  simp [afterFork]

theorem afterFork_ne_zero {pid : Int} (h : pid ≠ 0) (next : Unit → Run) :
    afterFork pid next = next () := by
  simp [afterFork, h]

theorem forLoop_done {o : Oracle} {me : List Nat} {buf : String} {n i : Int} (h : ¬ i < n) :
    forLoop o me buf n i = ⟨Event.sleep 600 :: (stdio_exit buf ++ [Event.exit 0]), []⟩ := by
  rw [forLoop, if_neg h]

theorem forLoop_child {o : Oracle} {me : List Nat} {buf : String} {n i : Int} (h : i < n)
    (hz : o me i.toNat = 0) :
    forLoop o me buf n i = ⟨[Event.fork 0, Event._exit 0], []⟩ := by
  rw [forLoop, if_pos h]
  simp [hz, afterFork_zero]

theorem forLoop_created {o : Oracle} {me : List Nat} {buf : String} {n i : Int} (h : i < n)
    (hp : 0 < o me i.toNat) :
    forLoop o me buf n i =
      ⟨Event.fork (o me i.toNat) :: (forLoop o me buf n (i + 1)).calls,
        (o me i.toNat, [Event._exit 0]) :: (forLoop o me buf n (i + 1)).spawned⟩ := by
  rw [forLoop, if_pos h]
  have hne : o me i.toNat ≠ 0 := by omega
  simp [hp, afterFork_zero, afterFork_ne_zero hne]

theorem forLoop_failed {o : Oracle} {me : List Nat} {buf : String} {n i : Int} (h : i < n)
    (hp : o me i.toNat < 0) :
    forLoop o me buf n i =
      ⟨Event.fork (o me i.toNat) :: (forLoop o me buf n (i + 1)).calls,
        (forLoop o me buf n (i + 1)).spawned⟩ := by
  rw [forLoop, if_pos h]
  have hne : o me i.toNat ≠ 0 := by omega
  have hnp : ¬ 0 < o me i.toNat := by omega
  simp [hnp, afterFork_ne_zero hne]

/-- The calls of a process that goes through the rest of the loop without ever
seeing `fork` return `0`: the remaining `fork` calls, the sleep, the stdio
part of `exit`, and `exit`. -/
theorem forLoop_calls_from (o : Oracle) (me : List Nat) (buf : String) (n : Int) :
    ∀ (m : Nat) (i : Int), 0 ≤ i → (n - i).toNat = m →
      (∀ k : Nat, (k : Int) < n → o me k ≠ 0) →
      (forLoop o me buf n i).calls =
        (List.range' i.toNat m).map (fun k => Event.fork (o me k)) ++
          Event.sleep 600 :: (stdio_exit buf ++ [Event.exit 0]) := by
  intro m
  induction m with
  | zero =>
    intro i _ hm _
    have h : ¬ i < n := by omega
    rw [forLoop_done h]
    simp
  | succ m ih =>
    intro i hi hm ho
    have h : i < n := by omega
    have hk : o me i.toNat ≠ 0 := ho i.toNat (by omega)
    have hnext : (i + 1).toNat = i.toNat + 1 := by omega
    have hrec := ih (i + 1) (by omega) (by omega) ho
    rcases lt_or_gt_of_ne hk with hneg | hpos
    · rw [forLoop_failed h hneg]
      simp only [List.range'_succ, List.map_cons, List.cons_append, hrec, hnext]
    · rw [forLoop_created h hpos]
      simp only [List.range'_succ, List.map_cons, List.cons_append, hrec, hnext]

/-- The processes created by a process that goes through the rest of the loop
without ever seeing `fork` return `0`: one per `fork` call that returned a
positive value, and each of them only calls `_exit(0)`. -/
theorem forLoop_spawned_from (o : Oracle) (me : List Nat) (buf : String) (n : Int) :
    ∀ (m : Nat) (i : Int), 0 ≤ i → (n - i).toNat = m →
      (∀ k : Nat, (k : Int) < n → o me k ≠ 0) →
      (forLoop o me buf n i).spawned =
        ((List.range' i.toNat m).filter (fun k => 0 < o me k)).map
          (fun k => (o me k, [Event._exit 0])) := by
  intro m
  induction m with
  | zero =>
    intro i _ hm _
    have h : ¬ i < n := by omega
    rw [forLoop_done h]
    simp
  | succ m ih =>
    intro i hi hm ho
    have h : i < n := by omega
    have hk : o me i.toNat ≠ 0 := ho i.toNat (by omega)
    have hnext : (i + 1).toNat = i.toNat + 1 := by omega
    have hrec := ih (i + 1) (by omega) (by omega) ho
    rcases lt_or_gt_of_ne hk with hneg | hpos
    · rw [forLoop_failed h hneg]
      have hnp : ¬ 0 < o me i.toNat := by omega
      simp [List.range'_succ, List.filter_cons, hnp, hrec, hnext]
    · rw [forLoop_created h hpos]
      simp [List.range'_succ, List.filter_cons, hpos, hrec, hnext]

/-- Whatever `fork` returns, every process created in the loop makes the one
call `_exit(0)`. -/
theorem forLoop_spawned_calls (o : Oracle) (buf : String) (n : Int) :
    ∀ (m : Nat) (i : Int) (me : List Nat), (n - i).toNat = m →
      ∀ c ∈ (forLoop o me buf n i).spawned, c.2 = [Event._exit 0] := by
  intro m
  induction m with
  | zero =>
    intro i me hm c hc
    have h : ¬ i < n := by omega
    rw [forLoop_done h] at hc
    simp at hc
  | succ m ih =>
    intro i me hm c hc
    have h : i < n := by omega
    have hrec := ih (i + 1) me (by omega)
    rcases lt_trichotomy (o me i.toNat) 0 with hneg | hz | hpos
    · rw [forLoop_failed h hneg] at hc
      exact hrec c hc
    · rw [forLoop_child h hz] at hc
      simp at hc
    · rw [forLoop_created h hpos] at hc
      rcases List.mem_cons.mp hc with rfl | hc
      · rfl
      · exact hrec c hc

/-! ## stdio -/

theorem splitAfterLastNewline_line (cs : List Char) :
    splitAfterLastNewline (cs ++ ['\n']) = (cs ++ ['\n'], []) := by
  simp [splitAfterLastNewline, List.dropWhile, List.takeWhile]

theorem announcement_data (pid n : Int) :
    (announcement pid n).data =
      ("Parent PID: " ++ toString pid ++ " — creating " ++ toString n ++ " zombie(s)").data
        ++ ['\n'] := by
  simp [announcement, String.data_append]

theorem announcement_ne_empty (pid n : Int) : announcement pid n ≠ "" := by
  intro h
  have h2 := congrArg String.data h
  rw [announcement_data] at h2
  simp at h2

/-- On a terminal the announcement is written by the `printf` call itself. -/
theorem stdio_printf_tty (pid n : Int) :
    stdio_printf true "" (announcement pid n) =
      ([Event.printf (announcement pid n), Event.write (announcement pid n)], "") := by
  have hd := announcement_data pid n
  simp only [stdio_printf, String.empty_append, if_true, hd, splitAfterLastNewline_line]
  rw [← hd]
  have hne : (announcement pid n).data ≠ [] := by rw [hd]; simp
  simp [hne]

/-- Otherwise the announcement stays in the buffer. -/
theorem stdio_printf_notty (text : String) :
    stdio_printf false "" text = ([Event.printf text], text) := by
  simp [stdio_printf]

theorem stdio_exit_announcement (pid n : Int) :
    stdio_exit (announcement pid n) = [Event.write (announcement pid n)] := by
  simp [stdio_exit, announcement_ne_empty]

theorem stdio_exit_empty : stdio_exit "" = [] := by
  simp [stdio_exit]

/-! ## `atoi` reads back what `%d` prints -/

theorem isdigit_digitChar (d : Nat) (h : d < 10) :
    isdigit (Nat.digitChar d) = true ∧ (Nat.digitChar d).toNat - 48 = d := by
  interval_cases d <;> exact ⟨by decide, by decide⟩

theorem not_isspace_of_isdigit (c : Char) (h : isdigit c = true) : isspace c = false := by
  cases hs : isspace c with
  | false => rfl
  | true =>
    simp only [isspace, Bool.or_eq_true, decide_eq_true_eq] at hs
    rcases hs with ((((rfl | rfl) | rfl) | rfl) | rfl) | rfl <;> exact absurd h (by decide)

theorem digitsValue_append (xs ys : List Char) (hx : ∀ c ∈ xs, isdigit c = true) :
    ∀ acc, digitsValue acc (xs ++ ys) = digitsValue (digitsValue acc xs) ys := by
  induction xs with
  | nil => intro acc; rfl
  | cons c cs ih =>
    intro acc
    have hc : isdigit c = true := hx c (List.mem_cons_self _ _)
    have hcs : ∀ d ∈ cs, isdigit d = true := fun d hd => hx d (List.mem_cons_of_mem _ hd)
    simp [digitsValue, hc, ih hcs]

theorem toDigitsCore_append (f : Nat) :
    ∀ (n : Nat) (ds : List Char),
      Nat.toDigitsCore 10 f n ds = Nat.toDigitsCore 10 f n [] ++ ds := by
  induction f with
  | zero => intro n ds; simp [Nat.toDigitsCore]
  | succ f ih =>
    intro n ds
    simp only [Nat.toDigitsCore]
    by_cases h : n / 10 = 0
    · simp [h]
    · simp only [h, if_false]
      rw [ih (n / 10) (Nat.digitChar (n % 10) :: ds), ih (n / 10) [Nat.digitChar (n % 10)]]
      simp

/-- The digits printed for `n` are decimal digits, there is at least one, and
their value is `n`. -/
theorem toDigitsCore_spec :
    ∀ (f n : Nat), n < f →
      (∀ c ∈ Nat.toDigitsCore 10 f n [], isdigit c = true) ∧
      Nat.toDigitsCore 10 f n [] ≠ [] ∧
      digitsValue 0 (Nat.toDigitsCore 10 f n []) = n := by
  intro f
  induction f with
  | zero => intro n h; omega
  | succ f ih =>
    intro n hn
    have hd := isdigit_digitChar (n % 10) (Nat.mod_lt _ (by decide))
    simp only [Nat.toDigitsCore]
    by_cases h : n / 10 = 0
    · have hlt : n < 10 := by omega
      have hmod : n % 10 = n := Nat.mod_eq_of_lt hlt
      rw [hmod] at hd
      simp [h, hmod, digitsValue, hd.1, hd.2]
    · simp only [h, if_false]
      rw [toDigitsCore_append f (n / 10) [Nat.digitChar (n % 10)]]
      obtain ⟨hall, _, hval⟩ := ih (n / 10) (by omega)
      refine ⟨?_, by simp, ?_⟩
      · intro c hc
        rcases List.mem_append.mp hc with hc | hc
        · exact hall c hc
        · rw [List.mem_singleton.mp hc]; exact hd.1
      · rw [digitsValue_append _ _ hall, hval]
        simp only [digitsValue, hd.1, if_true, hd.2]
        omega

theorem strtol10_digits (ds : List Char) (hall : ∀ c ∈ ds, isdigit c = true) (hne : ds ≠ []) :
    (ds.dropWhile isspace = ds) ∧ (∀ r, ds ≠ '-' :: r) ∧ (∀ r, ds ≠ '+' :: r) := by
  cases ds with
  | nil => exact absurd rfl hne
  | cons c cs =>
    have hc : isdigit c = true := hall c (List.mem_cons_self _ _)
    refine ⟨by simp [List.dropWhile, not_isspace_of_isdigit c hc], ?_, ?_⟩
    · intro r h
      rw [(List.cons.inj h).1] at hc
      exact absurd hc (by decide)
    · intro r h
      rw [(List.cons.inj h).1] at hc
      exact absurd hc (by decide)

/-- Reading a natural number back. -/
theorem strtol10_natRepr (m : Nat) (hm : (m : Int) ≤ LONG_MAX) :
    strtol10 (Nat.repr m).data = m := by
  obtain ⟨hall, hne, hval⟩ := toDigitsCore_spec (m + 1) m (by omega)
  obtain ⟨hdrop, hminus, hplus⟩ := strtol10_digits _ hall hne
  have hdata : (Nat.repr m).data = Nat.toDigitsCore 10 (m + 1) m [] := rfl
  simp only [strtol10, hdata, hdrop, hval]
  simp only [LONG_MIN, LONG_MAX] at *
  have h1 : ¬ ((m : Int) < -9223372036854775808) := by omega
  have h2 : ¬ ((9223372036854775807 : Int) < m) := by omega
  simp [h1, h2]

/-- Reading a negative number back. -/
theorem strtol10_negRepr (m : Nat) (hm : LONG_MIN ≤ -(m : Int)) :
    strtol10 ("-" ++ Nat.repr m).data = -(m : Int) := by
  obtain ⟨hall, hne, hval⟩ := toDigitsCore_spec (m + 1) m (by omega)
  have hdata : ("-" ++ Nat.repr m).data = '-' :: Nat.toDigitsCore 10 (m + 1) m [] := rfl
  have hdrop : ('-' :: Nat.toDigitsCore 10 (m + 1) m []).dropWhile isspace
      = '-' :: Nat.toDigitsCore 10 (m + 1) m [] := by
    rw [List.dropWhile_cons_of_neg (by decide)]
  simp only [strtol10, hdata, hdrop, hval]
  simp only [LONG_MIN, LONG_MAX] at *
  have h1 : ¬ (-(m : Int) < -9223372036854775808) := by omega
  have h2 : ¬ ((9223372036854775807 : Int) < -(m : Int)) := by omega
  simp [h1, h2]

/-- The function `atoi` returns `n` on the decimal numeral of an `int` value
`n`, as `%d` prints it. -/
theorem atoi_toString (n : Int) (hlo : INT_MIN ≤ n) (hhi : n ≤ INT_MAX) :
    atoi (toString n) = n := by
  simp only [INT_MIN, INT_MAX] at hlo hhi
  unfold atoi
  cases n with
  | ofNat m =>
    have hs : toString (Int.ofNat m) = Nat.repr m := rfl
    have hm : ((m : Nat) : Int) ≤ 2147483647 := hhi
    rw [hs, strtol10_natRepr m (by simp only [LONG_MAX]; omega)]
    simp only [toInt32, Int.ofNat_eq_coe]
    omega
  | negSucc m =>
    have hs : toString (Int.negSucc m) = "-" ++ Nat.repr (m + 1) := rfl
    have hm : (-2147483648 : Int) ≤ -((m + 1 : Nat) : Int) := by
      have := Int.negSucc_eq m
      omega
    rw [hs, strtol10_negRepr (m + 1) (by simp only [LONG_MIN]; omega)]
    simp only [toInt32]
    have := Int.negSucc_eq m
    omega

/-! ## `main` as a whole -/

theorem written_forks (f : Nat → Int) (l : List Nat) :
    written (l.map (fun k => Event.fork (f k))) = [] := by
  induction l with
  | nil => rfl
  | cons a l ih => simpa [written] using ih

theorem written_append (xs ys : List Event) :
    written (xs ++ ys) = written xs ++ written ys := by
  induction xs with
  | nil => rfl
  | cons e es ih => cases e <;> simp [written, ih]

theorem forkCalls_append (xs ys : List Event) :
    forkCalls (xs ++ ys) = forkCalls xs ++ forkCalls ys := by
  induction xs with
  | nil => rfl
  | cons e es ih => cases e <;> simp [forkCalls, ih]

theorem forkCalls_forks (f : Nat → Int) (l : List Nat) :
    forkCalls (l.map (fun k => Event.fork (f k))) = l.map f := by
  induction l with
  | nil => rfl
  | cons a l ih => simpa [forkCalls] using ih

theorem forget_forks (f : Nat → Int) (l : List Nat) :
    (l.map (fun k => Event.fork (f k))).map Event.forget = l.map (fun _ => Event.fork 0) := by
  induction l with
  | nil => rfl
  | cons a l ih => simpa [Event.forget] using ih

theorem count_cons_cons (prog arg : String) (rest : List String) :
    count (prog :: arg :: rest) = atoi arg := by
  simp [count]

theorem count_numeral (prog : String) (rest : List String) (n : Int)
    (hlo : INT_MIN ≤ n) (hhi : n ≤ INT_MAX) :
    count (prog :: toString n :: rest) = n := by
  rw [count_cons_cons, atoi_toString n hlo hhi]

/-- The count is an `int`, whatever the arguments. -/
theorem count_range (argv : List String) : INT_MIN ≤ count argv ∧ count argv ≤ INT_MAX := by
  unfold count
  split
  · simp only [atoi, toInt32, INT_MIN, INT_MAX]
    omega
  · decide

theorem count_no_argument (argv : List String) (h : argv.length ≤ 1) : count argv = 1 := by
  have h2 : ¬ 1 < argv.length := by omega
  simp [count, h2]

/-- The calls of the original process, which never sees `fork` return `0`,
when standard output is a terminal. -/
theorem main_calls_tty (argv : List String) (pid : Int) (o : Oracle)
    (ho : ∀ k : Nat, (k : Int) < count argv → o [] k ≠ 0) :
    (main argv pid true o).calls =
      Event.getpid pid :: Event.printf (announcement pid (count argv)) ::
        Event.write (announcement pid (count argv)) ::
          ((List.range (count argv).toNat).map (fun k => Event.fork (o [] k)) ++
            [Event.sleep 600, Event.exit 0]) := by
  have h := forLoop_calls_from o [] "" (count argv) (count argv).toNat 0 (le_refl 0) (by simp) ho
  simp only [main, stdio_printf_tty, h, stdio_exit_empty]
  simp [List.range_eq_range']

/-- The calls of the original process, which never sees `fork` return `0`,
when standard output is not a terminal. -/
theorem main_calls_notty (argv : List String) (pid : Int) (o : Oracle)
    (ho : ∀ k : Nat, (k : Int) < count argv → o [] k ≠ 0) :
    (main argv pid false o).calls =
      Event.getpid pid :: Event.printf (announcement pid (count argv)) ::
        ((List.range (count argv).toNat).map (fun k => Event.fork (o [] k)) ++
          [Event.sleep 600, Event.write (announcement pid (count argv)), Event.exit 0]) := by
  have h := forLoop_calls_from o [] (announcement pid (count argv)) (count argv)
    (count argv).toNat 0 (le_refl 0) (by simp) ho
  simp only [main, stdio_printf_notty, h, stdio_exit_announcement]
  simp [List.range_eq_range']

/-- The processes created in a run of `main` whose original process never
sees `fork` return `0`. -/
theorem main_spawned (argv : List String) (pid : Int) (tty : Bool) (o : Oracle)
    (ho : ∀ k : Nat, (k : Int) < count argv → o [] k ≠ 0) :
    (main argv pid tty o).spawned =
      ((List.range (count argv).toNat).filter (fun k => 0 < o [] k)).map
        (fun k => (o [] k, [Event._exit 0])) := by
  have h := forLoop_spawned_from o [] (stdio_printf tty "" (announcement pid (count argv))).2
    (count argv) (count argv).toNat 0 (le_refl 0) (by simp) ho
  simp only [main, h]
  simp [List.range_eq_range']

/-- Every process created in a run of `main` makes the one call `_exit(0)`. -/
theorem main_spawned_calls (argv : List String) (pid : Int) (tty : Bool) (o : Oracle) :
    ∀ c ∈ (main argv pid tty o).spawned, c.2 = [Event._exit 0] := by
  intro c hc
  exact forLoop_spawned_calls o _ (count argv) _ 0 [] rfl c hc

theorem spawned_written (l : List (Int × List Event))
    (h : ∀ c ∈ l, c.2 = [Event._exit 0]) :
    (l.map (fun c => written c.2)).flatten = [] := by
  induction l with
  | nil => rfl
  | cons a l ih =>
    have ha : a.2 = [Event._exit 0] := h a (List.mem_cons_self _ _)
    have hl := ih (fun c hc => h c (List.mem_cons_of_mem _ hc))
    simp [ha, written, hl]

/-- What reaches standard output in a run of `main` whose original process
never sees `fork` return `0`: the announcement, once. -/
theorem main_output (argv : List String) (pid : Int) (tty : Bool) (o : Oracle)
    (ho : ∀ k : Nat, (k : Int) < count argv → o [] k ≠ 0) :
    (main argv pid tty o).output = announcement pid (count argv) := by
  have hs := spawned_written _ (main_spawned_calls argv pid tty o)
  cases tty with
  | true =>
    simp only [Run.output, hs, main_calls_tty argv pid o ho]
    simp [written, written_append, written_forks, String.join]
  | false =>
    simp only [Run.output, hs, main_calls_notty argv pid o ho]
    simp [written, written_append, written_forks, String.join]

theorem digitsValue_no_digit (r : List Char) (h : (r.head?.any isdigit) = false) :
    digitsValue 0 r = 0 := by
  cases r with
  | nil => rfl
  | cons c cs =>
    have hc : isdigit c = false := by simpa using h
    simp [digitsValue, hc]

/-- Where `atoi` finds no number it returns `0`. -/
theorem atoi_nonNumeric (arg : String) (h : nonNumeric arg = true) : atoi arg = 0 := by
  unfold nonNumeric at h
  unfold atoi strtol10
  generalize arg.data.dropWhile isspace = l at h ⊢
  have key : (match l with
      | '-' :: r => -(digitsValue 0 r : Int)
      | '+' :: r => (digitsValue 0 r : Int)
      | r => (digitsValue 0 r : Int)) = 0 := by
    split at h <;> simp at h <;> simp [digitsValue_no_digit _ (by simpa using h)]
  simp only [key]
  decide

theorem toString_nat_data (m : Nat) : ∀ c ∈ (toString m).data, isdigit c = true :=
  (toDigitsCore_spec (m + 1) m (by omega)).1

theorem toString_int_no_newline (k : Int) : (toString k).data.count '\n' = 0 := by
  rw [List.count_eq_zero]
  intro hmem
  cases k with
  | ofNat m =>
    exact absurd (toString_nat_data m _ hmem) (by decide)
  | negSucc m =>
    have hs : (toString (Int.negSucc m)).data = '-' :: (toString (m + 1)).data := rfl
    rw [hs] at hmem
    rcases List.mem_cons.mp hmem with h | h
    · exact absurd h (by decide)
    · exact absurd (toString_nat_data (m + 1) _ h) (by decide)

/-- The announcement is one line: its only newline is its last byte. -/
theorem announcement_one_line (pid n : Int) :
    (announcement pid n).data.count '\n' = 1 ∧
      (announcement pid n).data.getLast? = some '\n' := by
  constructor
  · simp only [announcement, String.data_append, List.count_append, toString_int_no_newline]
    decide
  · rw [announcement_data]
    exact List.getLast?_concat _

/-- A run in which the loop is not entered. -/
theorem main_count_nonpos (argv : List String) (pid : Int) (tty : Bool) (o : Oracle)
    (h : count argv ≤ 0) :
    main argv pid tty o =
      ⟨if tty then
          [Event.getpid pid, Event.printf (announcement pid (count argv)),
            Event.write (announcement pid (count argv)), Event.sleep 600, Event.exit 0]
        else
          [Event.getpid pid, Event.printf (announcement pid (count argv)), Event.sleep 600,
            Event.write (announcement pid (count argv)), Event.exit 0], []⟩ := by
  have hn : ¬ (0 : Int) < count argv := by omega
  cases tty with
  | true =>
    simp only [main, stdio_printf_tty, forLoop_done hn, stdio_exit_empty]
    simp
  | false =>
    simp only [main, stdio_printf_notty, forLoop_done hn, stdio_exit_announcement]
    simp

theorem forLoop_no_wait (o : Oracle) (buf : String) (n : Int) (me : List Nat) :
    ∀ (m : Nat) (i : Int), (n - i).toNat = m → Event.wait ∉ (forLoop o me buf n i).calls := by
  intro m
  induction m with
  | zero =>
    intro i hm
    have h : ¬ i < n := by omega
    rw [forLoop_done h]
    by_cases hb : buf = "" <;> simp [stdio_exit, hb]
  | succ m ih =>
    intro i hm
    have h : i < n := by omega
    have hrec := ih (i + 1) (by omega)
    rcases lt_trichotomy (o me i.toNat) 0 with hneg | hz | hpos
    · rw [forLoop_failed h hneg]
      simpa using hrec
    · rw [forLoop_child h hz]
      simp
    · rw [forLoop_created h hpos]
      simpa using hrec

theorem stdio_printf_no_wait (tty : Bool) (buf text : String) :
    Event.wait ∉ (stdio_printf tty buf text).1 := by
  unfold stdio_printf
  cases tty <;> simp

/-- The original process never waits. -/
theorem main_no_wait (argv : List String) (pid : Int) (tty : Bool) (o : Oracle) :
    Event.wait ∉ (main argv pid tty o).calls := by
  have h1 := forLoop_no_wait o (stdio_printf tty "" (announcement pid (count argv))).2
    (count argv) [] _ 0 rfl
  have h2 := stdio_printf_no_wait tty "" (announcement pid (count argv))
  simp only [main, List.mem_cons, List.mem_append, not_or]
  exact ⟨by simp, h2, h1⟩

/-! ## The claims -/

/-- C1 (as the code has it): for every non-negative `n` that is a value of
`int` (`n ≤ INT_MAX`) given as the argument, when every `fork` call of the
original process succeeds (returns a positive value), the run creates exactly
`n` processes, one per loop iteration, and each of them makes the single call
`_exit(0)`: none of them forks. -/
theorem c1_creates_n_children (prog : String) (rest : List String) (n pid : Int) (tty : Bool)
    (o : Oracle) (h0 : 0 ≤ n) (hhi : n ≤ INT_MAX)
    (ho : ∀ k : Nat, (k : Int) < n → 0 < o [] k) :
    (main (prog :: toString n :: rest) pid tty o).spawned =
        (List.range n.toNat).map (fun k => (o [] k, [Event._exit 0])) ∧
      ((main (prog :: toString n :: rest) pid tty o).spawned.length : Int) = n ∧
      ∀ c ∈ (main (prog :: toString n :: rest) pid tty o).spawned,
        c.2 = [Event._exit 0] ∧ forkCalls c.2 = [] := by
  have hc : count (prog :: toString n :: rest) = n :=
    count_numeral prog rest n (by simp only [INT_MIN]; omega) hhi
  have hne : ∀ k : Nat, (k : Int) < count (prog :: toString n :: rest) → o [] k ≠ 0 := by
    intro k hk
    rw [hc] at hk
    have := ho k hk
    omega
  have hs := main_spawned (prog :: toString n :: rest) pid tty o hne
  rw [hc] at hs
  have hall : (List.range n.toNat).filter (fun k => decide (0 < o [] k)) = List.range n.toNat := by
    rw [List.filter_eq_self]
    intro k hk
    have hk2 : k < n.toNat := List.mem_range.mp hk
    simpa using ho k (by omega)
  rw [hall] at hs
  refine ⟨hs, ?_, ?_⟩
  · rw [hs]
    simp only [List.length_map, List.length_range]
    omega
  · intro c hcm
    have := main_spawned_calls _ pid tty o c hcm
    rw [this]
    exact ⟨rfl, rfl⟩

/-- C1 at the argument `"3"`: three children, each only calling `_exit(0)`. -/
theorem c1_creates_n_children_witness :
    (main ["zombie_simulator", "3"] 4242 true (fun _ k => 5000 + k)).spawned =
      [(5000, [Event._exit 0]), (5001, [Event._exit 0]), (5002, [Event._exit 0])] :=
  (c1_creates_n_children "zombie_simulator" [] 3 4242 true (fun _ k => 5000 + k)
    (by decide) (by decide) (by intro k _; (try dsimp only); omega)).1

/-- C1 as stated fails at the non-negative integer 4294967299, beyond `int`:
given as the argument, with every `fork` succeeding, `atoi` makes the count 3
and the run creates 3 processes, not 4294967299. -/
theorem c1_counterexample :
    toString (4294967299 : Int) = "4294967299" ∧
      (0 : Int) ≤ 4294967299 ∧
      (∀ k : Nat, (k : Int) < 4294967299 → (0 : Int) < 5000 + k) ∧
      count ["zombie_simulator", "4294967299"] = 3 ∧
      (main ["zombie_simulator", "4294967299"] 4242 true (fun _ k => 5000 + k)).spawned =
        [(5000, [Event._exit 0]), (5001, [Event._exit 0]), (5002, [Event._exit 0])] ∧
      ((main ["zombie_simulator", "4294967299"] 4242 true
        (fun _ k => 5000 + k)).spawned.length : Int) ≠ 4294967299 := by
  have hs := main_spawned ["zombie_simulator", "4294967299"] 4242 true (fun _ k => 5000 + k)
    (by intro k _; (try dsimp only); omega)
  have hsp : (main ["zombie_simulator", "4294967299"] 4242 true (fun _ k => 5000 + k)).spawned =
      [(5000, [Event._exit 0]), (5001, [Event._exit 0]), (5002, [Event._exit 0])] := hs
  refine ⟨by decide, by decide, by intro k _; omega, by decide, hsp, ?_⟩
  rw [hsp]
  decide

/-- C3: the original process never waits for a child, whatever its arguments
and whatever `fork` returns.  When it is the parent in every iteration its
calls are `getpid`, the `printf` of the announcement (written at once on a
terminal, at `exit` otherwise), the `fork` calls, one `sleep` and the return
from `main`; and no value returned by `fork` is kept: with other process
identifiers returned, the calls are the same apart from those values. -/
theorem c3_never_waits (argv : List String) (pid : Int) (tty : Bool) (o : Oracle) :
    Event.wait ∉ (main argv pid tty o).calls ∧
      (∀ c ∈ (main argv pid tty o).spawned, Event.wait ∉ c.2) ∧
      ((∀ k : Nat, (k : Int) < count argv → o [] k ≠ 0) →
        (main argv pid tty o).calls =
          [Event.getpid pid, Event.printf (announcement pid (count argv))] ++
            (if tty then [Event.write (announcement pid (count argv))] else []) ++
            (List.range (count argv).toNat).map (fun k => Event.fork (o [] k)) ++
            [Event.sleep 600] ++
            (if tty then [] else [Event.write (announcement pid (count argv))]) ++
            [Event.exit 0]) ∧
      (∀ o2 : Oracle,
        (∀ k : Nat, (k : Int) < count argv → o [] k ≠ 0 ∧ o2 [] k ≠ 0) →
        (main argv pid tty o).calls.map Event.forget =
          (main argv pid tty o2).calls.map Event.forget) := by
  refine ⟨?_, ?_, ?_, ?_⟩
  · exact main_no_wait argv pid tty o
  · intro c hc
    rw [main_spawned_calls argv pid tty o c hc]
    simp
  · intro ho
    cases tty with
    | true => rw [main_calls_tty argv pid o ho]; simp
    | false => rw [main_calls_notty argv pid o ho]; simp
  · intro o2 h
    have h1 : ∀ k : Nat, (k : Int) < count argv → o [] k ≠ 0 := fun k hk => (h k hk).1
    have h2 : ∀ k : Nat, (k : Int) < count argv → o2 [] k ≠ 0 := fun k hk => (h k hk).2
    cases tty with
    | true =>
      rw [main_calls_tty argv pid o h1, main_calls_tty argv pid o2 h2]
      simp only [List.map_cons, List.map_append, forget_forks]
    | false =>
      rw [main_calls_notty argv pid o h1, main_calls_notty argv pid o2 h2]
      simp only [List.map_cons, List.map_append, forget_forks]

/-- C3 at the argument `"2"` with standard output not a terminal. -/
theorem c3_never_waits_witness :
    Event.wait ∉ (main ["zombie_simulator", "2"] 4242 false (fun _ k => 5000 + k)).calls ∧
      (main ["zombie_simulator", "2"] 4242 false (fun _ k => 5000 + k)).calls =
        [Event.getpid 4242, Event.printf "Parent PID: 4242 — creating 2 zombie(s)\n",
          Event.fork 5000, Event.fork 5001, Event.sleep 600,
          Event.write "Parent PID: 4242 — creating 2 zombie(s)\n", Event.exit 0] :=
  have h := c3_never_waits ["zombie_simulator", "2"] 4242 false (fun _ k => 5000 + k)
  ⟨h.1, h.2.2.1 (by intro k _; omega)⟩

/-- C4 (as the code has it): for every argument that is the decimal numeral
of an `int` value `n`, everything that reaches standard output in the run is
the one line `Parent PID: <pid> — creating <n> zombie(s)` with its newline,
where `<pid>` is what `getpid` returned and `<n>` is the bound of the loop
(there are `max n 0` calls of `fork`).  The `printf` of that line is the call
right after `getpid`, before every `fork`.  The line itself is written before
the first `fork` only when standard output is a terminal; otherwise it stays
in the stdio buffer and is written after every `fork` and after the sleep,
when the parent returns from `main`. -/
theorem c4_output_one_line (prog : String) (rest : List String) (n pid : Int) (tty : Bool)
    (o : Oracle) (hlo : INT_MIN ≤ n) (hhi : n ≤ INT_MAX)
    (ho : ∀ k : Nat, (k : Int) < n → o [] k ≠ 0) :
    (main (prog :: toString n :: rest) pid tty o).output =
        "Parent PID: " ++ toString pid ++ " — creating " ++ toString n ++ " zombie(s)\n" ∧
      (main (prog :: toString n :: rest) pid tty o).output.data.count '\n' = 1 ∧
      (main (prog :: toString n :: rest) pid tty o).output.data.getLast? = some '\n' ∧
      (main (prog :: toString n :: rest) pid tty o).calls =
        (if tty then
          Event.getpid pid :: Event.printf (announcement pid n) ::
            Event.write (announcement pid n) ::
              ((List.range n.toNat).map (fun k => Event.fork (o [] k)) ++
                [Event.sleep 600, Event.exit 0])
        else
          Event.getpid pid :: Event.printf (announcement pid n) ::
            ((List.range n.toNat).map (fun k => Event.fork (o [] k)) ++
              [Event.sleep 600, Event.write (announcement pid n), Event.exit 0])) ∧
      forkCalls (main (prog :: toString n :: rest) pid tty o).calls =
        (List.range n.toNat).map (o []) := by
  have hc : count (prog :: toString n :: rest) = n := count_numeral prog rest n hlo hhi
  have hne : ∀ k : Nat, (k : Int) < count (prog :: toString n :: rest) → o [] k ≠ 0 := by
    intro k hk
    rw [hc] at hk
    exact ho k hk
  have hout := main_output (prog :: toString n :: rest) pid tty o hne
  rw [hc] at hout
  have hline := announcement_one_line pid n
  refine ⟨hout, ?_, ?_, ?_, ?_⟩
  · rw [hout]; exact hline.1
  · rw [hout]; exact hline.2
  · cases tty with
    | true =>
      have h := main_calls_tty (prog :: toString n :: rest) pid o hne
      rw [hc] at h
      rw [h]; rfl
    | false =>
      have h := main_calls_notty (prog :: toString n :: rest) pid o hne
      rw [hc] at h
      rw [h]; rfl
  · cases tty with
    | true =>
      have h := main_calls_tty (prog :: toString n :: rest) pid o hne
      rw [hc] at h
      rw [h]
      simp [forkCalls, forkCalls_append, forkCalls_forks]
    | false =>
      have h := main_calls_notty (prog :: toString n :: rest) pid o hne
      rw [hc] at h
      rw [h]
      simp [forkCalls, forkCalls_append, forkCalls_forks]

/-- C4 at the argument `"3"` on a terminal: the line announces 3, it is
written before the first `fork`, and there are 3 calls of `fork`. -/
theorem c4_output_one_line_witness :
    (main ["zombie_simulator", "3"] 4242 true (fun _ k => 5000 + k)).output =
        "Parent PID: 4242 — creating 3 zombie(s)\n" ∧
      (main ["zombie_simulator", "3"] 4242 true (fun _ k => 5000 + k)).calls =
        [Event.getpid 4242, Event.printf "Parent PID: 4242 — creating 3 zombie(s)\n",
          Event.write "Parent PID: 4242 — creating 3 zombie(s)\n",
          Event.fork 5000, Event.fork 5001, Event.fork 5002, Event.sleep 600, Event.exit 0] ∧
      forkCalls (main ["zombie_simulator", "3"] 4242 true (fun _ k => 5000 + k)).calls =
        [5000, 5001, 5002] :=
  have h := c4_output_one_line "zombie_simulator" [] 3 4242 true (fun _ k => 5000 + k)
    (by decide) (by decide) (by intro k _; (try dsimp only); omega)
  ⟨h.1, h.2.2.2.1, h.2.2.2.2⟩

/-- C4 as stated fails at the argument `"3"` when standard output is not a
terminal: nothing has been written when the first `fork` is called; the line
is written after the three `fork` calls and after `sleep(600)`. -/
theorem c4_counterexample :
    (main ["zombie_simulator", "3"] 4242 false (fun _ k => 5000 + k)).calls =
        [Event.getpid 4242, Event.printf "Parent PID: 4242 — creating 3 zombie(s)\n",
          Event.fork 5000, Event.fork 5001, Event.fork 5002, Event.sleep 600,
          Event.write "Parent PID: 4242 — creating 3 zombie(s)\n", Event.exit 0] ∧
      written (beforeFirstFork
        (main ["zombie_simulator", "3"] 4242 false (fun _ k => 5000 + k)).calls) = [] ∧
      written (main ["zombie_simulator", "3"] 4242 false (fun _ k => 5000 + k)).calls =
        ["Parent PID: 4242 — creating 3 zombie(s)\n"] := by
  have h := main_calls_notty ["zombie_simulator", "3"] 4242 (fun _ k => 5000 + k)
    (by intro k _; (try dsimp only); omega)
  have hcalls : (main ["zombie_simulator", "3"] 4242 false (fun _ k => 5000 + k)).calls =
      [Event.getpid 4242, Event.printf "Parent PID: 4242 — creating 3 zombie(s)\n",
        Event.fork 5000, Event.fork 5001, Event.fork 5002, Event.sleep 600,
        Event.write "Parent PID: 4242 — creating 3 zombie(s)\n", Event.exit 0] := h
  refine ⟨hcalls, ?_, ?_⟩
  · rw [hcalls]; rfl
  · rw [hcalls]; rfl

/-- C5: whatever the count and whatever `fork` returns to the parent, the
parent sleeps exactly once, for 600 seconds; every `fork` call comes before
that sleep and none after it; the parent has not terminated before the
sleep; and after it the parent returns from `main` with status 0, its last
call. -/
theorem c5_single_sleep (argv : List String) (pid : Int) (tty : Bool) (o : Oracle)
    (ho : ∀ k : Nat, (k : Int) < count argv → o [] k ≠ 0) :
    ∃ pre post, (main argv pid tty o).calls = pre ++ Event.sleep 600 :: post ∧
      (∀ e ∈ pre ++ post, ∀ s, e ≠ Event.sleep s) ∧
      forkCalls pre = (List.range (count argv).toNat).map (o []) ∧
      forkCalls post = [] ∧
      (∀ e ∈ pre, e.terminates = false) ∧
      ∃ mid, post = mid ++ [Event.exit 0] ∧ ∀ e ∈ mid, e.terminates = false := by
  cases tty with
  | true =>
    refine ⟨Event.getpid pid :: Event.printf (announcement pid (count argv)) ::
        Event.write (announcement pid (count argv)) ::
          (List.range (count argv).toNat).map (fun k => Event.fork (o [] k)),
      [Event.exit 0], ?_, ?_, ?_, rfl, ?_, [], rfl, ?_⟩
    · rw [main_calls_tty argv pid o ho]; simp
    · intro e he s
      simp only [List.mem_append, List.mem_cons, List.mem_map, List.mem_singleton] at he
      rcases he with (rfl | rfl | rfl | ⟨k, _, rfl⟩) | (rfl | h) <;> simp at *
    · simp [forkCalls, forkCalls_forks]
    · intro e he
      simp only [List.mem_cons, List.mem_map] at he
      rcases he with rfl | rfl | rfl | ⟨k, _, rfl⟩ <;> rfl
    · intro e he; simp at he
  | false =>
    refine ⟨Event.getpid pid :: Event.printf (announcement pid (count argv)) ::
          (List.range (count argv).toNat).map (fun k => Event.fork (o [] k)),
      [Event.write (announcement pid (count argv)), Event.exit 0], ?_, ?_, ?_, rfl, ?_,
      [Event.write (announcement pid (count argv))], rfl, ?_⟩
    · rw [main_calls_notty argv pid o ho]; simp
    · intro e he s
      simp only [List.mem_append, List.mem_cons, List.mem_map, List.mem_singleton] at he
      rcases he with (rfl | rfl | ⟨k, _, rfl⟩) | (rfl | rfl | h) <;> simp at *
    · simp [forkCalls, forkCalls_forks]
    · intro e he
      simp only [List.mem_cons, List.mem_map] at he
      rcases he with rfl | rfl | ⟨k, _, rfl⟩ <;> rfl
    · intro e he
      simp only [List.mem_singleton] at he
      rw [he]; rfl

/-- C5 at the argument `"2"`, the second `fork` failing. -/
theorem c5_single_sleep_witness :
    ∃ pre post,
      (main ["zombie_simulator", "2"] 4242 true (fun _ k => if k = 1 then -1 else 5000)).calls =
        pre ++ Event.sleep 600 :: post ∧
      (∀ e ∈ pre ++ post, ∀ s, e ≠ Event.sleep s) ∧
      forkCalls pre = [5000, -1] ∧
      forkCalls post = [] ∧
      (∀ e ∈ pre, e.terminates = false) ∧
      ∃ mid, post = mid ++ [Event.exit 0] ∧ ∀ e ∈ mid, e.terminates = false :=
  c5_single_sleep ["zombie_simulator", "2"] 4242 true (fun _ k => if k = 1 then -1 else 5000)
    (by intro k _; (try dsimp only); split <;> decide)

/-- C6 (as the code has it): for every argument in which `atoi` finds no
number (after white space and one optional sign there is no digit, as in
`"abc"`), the count is 0, not 1: the line announces 0, no `fork` is called,
no process is created, and the parent sleeps 600 and returns 0. -/
theorem c6_non_numeric_is_zero (prog arg : String) (rest : List String) (pid : Int) (tty : Bool)
    (o : Oracle) (h : nonNumeric arg = true) :
    count (prog :: arg :: rest) = 0 ∧
      main (prog :: arg :: rest) pid tty o =
        ⟨if tty then
            [Event.getpid pid, Event.printf (announcement pid 0),
              Event.write (announcement pid 0), Event.sleep 600, Event.exit 0]
          else
            [Event.getpid pid, Event.printf (announcement pid 0), Event.sleep 600,
              Event.write (announcement pid 0), Event.exit 0], []⟩ ∧
      forkCalls (main (prog :: arg :: rest) pid tty o).calls = [] := by
  have hc : count (prog :: arg :: rest) = 0 := by
    rw [count_cons_cons, atoi_nonNumeric arg h]
  have hm := main_count_nonpos (prog :: arg :: rest) pid tty o (by omega)
  rw [hc] at hm
  refine ⟨hc, hm, ?_⟩
  rw [hm]
  cases tty <;> rfl

/-- C6 at the argument `"abc"`. -/
theorem c6_non_numeric_is_zero_witness :
    nonNumeric "abc" = true ∧
      main ["zombie_simulator", "abc"] 4242 true (fun _ k => 5000 + k) =
        ⟨[Event.getpid 4242, Event.printf "Parent PID: 4242 — creating 0 zombie(s)\n",
          Event.write "Parent PID: 4242 — creating 0 zombie(s)\n", Event.sleep 600,
          Event.exit 0], []⟩ :=
  ⟨by decide,
    (c6_non_numeric_is_zero "zombie_simulator" "abc" [] 4242 true (fun _ k => 5000 + k)
      (by decide)).2.1⟩

/-- C6 as stated fails at the argument `"abc"`: the count is 0, the line
announces 0 and there is no `fork` call, where the claim has 1 and one. -/
theorem c6_counterexample :
    count ["zombie_simulator", "abc"] = 0 ∧
      count ["zombie_simulator", "abc"] ≠ 1 ∧
      written (main ["zombie_simulator", "abc"] 4242 true (fun _ k => 5000 + k)).calls =
        ["Parent PID: 4242 — creating 0 zombie(s)\n"] ∧
      forkCalls (main ["zombie_simulator", "abc"] 4242 true (fun _ k => 5000 + k)).calls = [] ∧
      (forkCalls (main ["zombie_simulator", "abc"] 4242 true (fun _ k => 5000 + k)).calls).length
        ≠ 1 := by
  have hc : count ["zombie_simulator", "abc"] = 0 := by decide
  have hm := main_count_nonpos ["zombie_simulator", "abc"] 4242 true (fun _ k => 5000 + k)
    (by omega)
  refine ⟨hc, by decide, ?_, ?_, ?_⟩
  · rw [hm]; rfl
  · rw [hm]; rfl
  · rw [hm]; decide

/-- C7: run without a count argument, `main` does what it does with the
argument `"1"`, for the same `getpid` and `fork` results: the count is 1 in
both, the two runs are the same call for call (the announcement of 1, the
`fork` calls, `sleep(600)`, the return of 0), and the parent calls `fork`
once. -/
theorem c7_no_argument_is_one (argv : List String) (prog : String) (pid : Int) (tty : Bool)
    (o : Oracle) (h : argv.length ≤ 1) :
    count argv = 1 ∧ count [prog, "1"] = 1 ∧
      main argv pid tty o = main [prog, "1"] pid tty o ∧
      (o [] 0 ≠ 0 → forkCalls (main argv pid tty o).calls = [o [] 0]) := by
  have h1 : count argv = 1 := count_no_argument argv h
  have h2 : count [prog, "1"] = 1 := by
    rw [count_cons_cons]; decide
  refine ⟨h1, h2, ?_, ?_⟩
  · simp only [main, h1, h2]
  · intro ho
    have hne : ∀ k : Nat, (k : Int) < count argv → o [] k ≠ 0 := by
      intro k hk
      rw [h1] at hk
      have hk0 : k = 0 := by omega
      rw [hk0]; exact ho
    cases tty with
    | true =>
      rw [main_calls_tty argv pid o hne, h1]
      simp [forkCalls]
    | false =>
      rw [main_calls_notty argv pid o hne, h1]
      simp [forkCalls]

/-- C7 at the argument vector of a run without arguments. -/
theorem c7_no_argument_is_one_witness :
    main ["zombie_simulator"] 4242 false (fun _ k => 5000 + k) =
        main ["zombie_simulator", "1"] 4242 false (fun _ k => 5000 + k) ∧
      forkCalls (main ["zombie_simulator"] 4242 false (fun _ k => 5000 + k)).calls = [5000] :=
  have h := c7_no_argument_is_one ["zombie_simulator"] "zombie_simulator" 4242 false
    (fun _ k => 5000 + k) (by decide)
  ⟨h.2.2.1, h.2.2.2 (by decide)⟩

/-- C8: in the branch where `fork` returned 0 the process makes one more call,
`_exit(0)`, and creates nothing, whatever the rest of the loop would do: no
`fork`, no `sleep`, no `printf`, and no `exit` with its stdio cleanup.  So
every process created in a run of `main` makes exactly that call, with status
0, and writes nothing, also when it inherited the announcement in its stdio
buffer. -/
theorem c8_child_only_exits (next : Unit → Run) (argv : List String) (pid : Int) (tty : Bool)
    (o : Oracle) :
    afterFork 0 next = ⟨[Event._exit 0], []⟩ ∧
      (∀ c ∈ (main argv pid tty o).spawned,
        c.2 = [Event._exit 0] ∧ written c.2 = [] ∧ forkCalls c.2 = []) ∧
      ((main argv pid tty o).spawned.map (fun c => written c.2)).flatten = [] := by
  refine ⟨afterFork_zero next, ?_, spawned_written _ (main_spawned_calls argv pid tty o)⟩
  intro c hc
  rw [main_spawned_calls argv pid tty o c hc]
  exact ⟨rfl, rfl, rfl⟩

/-- C9: a `fork` that fails (returns a negative value) is treated like one
that returns a child's identifier.  For every non-negative count `n` and all
results of the parent's `fork` calls, the parent calls `fork` exactly `n`
times; its calls, the returned values apart, are those of a run in which
every `fork` succeeds; the processes created are as many as the `fork` calls
that returned a positive value, so fewer than `n` as soon as one fails; the
announcement is all that is ever written; and the parent sleeps 600 and then
returns 0. -/
theorem c9_failed_fork_ignored (prog : String) (rest : List String) (n pid : Int) (tty : Bool)
    (o : Oracle) (h0 : 0 ≤ n) (hhi : n ≤ INT_MAX)
    (ho : ∀ k : Nat, (k : Int) < n → o [] k ≠ 0) :
    forkCalls (main (prog :: toString n :: rest) pid tty o).calls =
        (List.range n.toNat).map (o []) ∧
      ((forkCalls (main (prog :: toString n :: rest) pid tty o).calls).length : Int) = n ∧
      (main (prog :: toString n :: rest) pid tty o).calls.map Event.forget =
        (main (prog :: toString n :: rest) pid tty (fun _ _ => 1)).calls.map Event.forget ∧
      (main (prog :: toString n :: rest) pid tty o).spawned.length =
        ((forkCalls (main (prog :: toString n :: rest) pid tty o).calls).filter
          (fun r => 0 < r)).length ∧
      ((∃ k : Nat, (k : Int) < n ∧ o [] k < 0) →
        ((main (prog :: toString n :: rest) pid tty o).spawned.length : Int) < n) ∧
      written (main (prog :: toString n :: rest) pid tty o).calls = [announcement pid n] ∧
      (main (prog :: toString n :: rest) pid tty o).output = announcement pid n ∧
      ∃ pre post, (main (prog :: toString n :: rest) pid tty o).calls =
          pre ++ Event.sleep 600 :: post ∧
        post.getLast? = some (Event.exit 0) := by
  have hc : count (prog :: toString n :: rest) = n :=
    count_numeral prog rest n (by simp only [INT_MIN]; omega) hhi
  have hne : ∀ k : Nat, (k : Int) < count (prog :: toString n :: rest) → o [] k ≠ 0 := by
    intro k hk
    rw [hc] at hk
    exact ho k hk
  have hone : ∀ k : Nat, (k : Int) < count (prog :: toString n :: rest) →
      (fun (_ : List Nat) (_ : Nat) => (1 : Int)) [] k ≠ 0 := by
    intro k _; exact one_ne_zero
  have hout := main_output (prog :: toString n :: rest) pid tty o hne
  have hs := main_spawned (prog :: toString n :: rest) pid tty o hne
  rw [hc] at hout hs
  have hforks : forkCalls (main (prog :: toString n :: rest) pid tty o).calls =
      (List.range n.toNat).map (o []) := by
    cases tty with
    | true =>
      rw [main_calls_tty _ pid o hne, hc]
      simp [forkCalls, forkCalls_append, forkCalls_forks]
    | false =>
      rw [main_calls_notty _ pid o hne, hc]
      simp [forkCalls, forkCalls_append, forkCalls_forks]
  have hlen : (main (prog :: toString n :: rest) pid tty o).spawned.length =
      ((List.range n.toNat).filter (fun k => decide (0 < o [] k))).length := by
    rw [hs, List.length_map]
  refine ⟨hforks, ?_, ?_, ?_, ?_, ?_, hout, ?_⟩
  · rw [hforks]
    simp only [List.length_map, List.length_range]
    omega
  · cases tty with
    | true =>
      rw [main_calls_tty _ pid o hne, main_calls_tty _ pid _ hone]
      simp only [List.map_cons, List.map_append, forget_forks]
    | false =>
      rw [main_calls_notty _ pid o hne, main_calls_notty _ pid _ hone]
      simp only [List.map_cons, List.map_append, forget_forks]
  · rw [hlen, hforks, List.filter_map, List.length_map]
    rfl
  · rintro ⟨k, hk, hfail⟩
    have hlt : ((List.range n.toNat).filter (fun k => decide (0 < o [] k))).length
        < (List.range n.toNat).length := by
      rw [List.length_filter_lt_length_iff_exists]
      exact ⟨k, List.mem_range.mpr (by omega), by simpa using (by omega : o [] k ≤ 0)⟩
    rw [List.length_range] at hlt
    rw [hlen]
    omega
  · cases tty with
    | true =>
      rw [main_calls_tty _ pid o hne, hc]
      simp [written, written_append, written_forks]
    | false =>
      rw [main_calls_notty _ pid o hne, hc]
      simp [written, written_append, written_forks]
  · cases tty with
    | true =>
      refine ⟨Event.getpid pid :: Event.printf (announcement pid n) ::
        Event.write (announcement pid n) ::
          (List.range n.toNat).map (fun k => Event.fork (o [] k)), [Event.exit 0], ?_, rfl⟩
      rw [main_calls_tty _ pid o hne, hc]
      simp
    | false =>
      refine ⟨Event.getpid pid :: Event.printf (announcement pid n) ::
          (List.range n.toNat).map (fun k => Event.fork (o [] k)),
        [Event.write (announcement pid n), Event.exit 0], ?_, rfl⟩
      rw [main_calls_notty _ pid o hne, hc]
      simp

/-- C9 at the argument `"3"`, the second `fork` failing: three attempts, two
children. -/
theorem c9_failed_fork_ignored_witness :
    forkCalls (main ["zombie_simulator", "3"] 4242 true
        (fun _ k => if k = 1 then -1 else 5000 + k)).calls = [5000, -1, 5002] ∧
      ((main ["zombie_simulator", "3"] 4242 true
        (fun _ k => if k = 1 then -1 else 5000 + k)).spawned.length : Int) < 3 :=
  have h := c9_failed_fork_ignored "zombie_simulator" [] 3 4242 true
    (fun _ k => if k = 1 then -1 else 5000 + k) (by decide) (by decide)
    (by intro k _; (try dsimp only); split <;> omega)
  ⟨h.1, h.2.2.2.2.1 ⟨1, by decide, by decide⟩⟩

/-- C10: for every `int` count `n` the parent calls `fork` `max n 0` times.
When `n ≤ 0` (the argument `"0"`, or a negative numeral such as `"-3"`) the
line announces `n` as it is, `fork` is never called and no process is
created, and the parent still sleeps 600 and returns 0. -/
theorem c10_count_not_positive (prog : String) (rest : List String) (n pid : Int) (tty : Bool)
    (o : Oracle) (hlo : INT_MIN ≤ n) (hhi : n ≤ INT_MAX) :
    (n ≤ 0 →
      main (prog :: toString n :: rest) pid tty o =
        ⟨if tty then
            [Event.getpid pid, Event.printf (announcement pid n),
              Event.write (announcement pid n), Event.sleep 600, Event.exit 0]
          else
            [Event.getpid pid, Event.printf (announcement pid n), Event.sleep 600,
              Event.write (announcement pid n), Event.exit 0], []⟩) ∧
      ((∀ k : Nat, (k : Int) < n → o [] k ≠ 0) →
        ((forkCalls (main (prog :: toString n :: rest) pid tty o).calls).length : Int)
          = max n 0) := by
  have hc : count (prog :: toString n :: rest) = n := count_numeral prog rest n hlo hhi
  constructor
  · intro hn
    have hm := main_count_nonpos (prog :: toString n :: rest) pid tty o (by omega)
    rw [hc] at hm
    exact hm
  · intro ho
    have hne : ∀ k : Nat, (k : Int) < count (prog :: toString n :: rest) → o [] k ≠ 0 := by
      intro k hk
      rw [hc] at hk
      exact ho k hk
    have hforks : forkCalls (main (prog :: toString n :: rest) pid tty o).calls =
        (List.range n.toNat).map (o []) := by
      cases tty with
      | true =>
        rw [main_calls_tty _ pid o hne, hc]
        simp [forkCalls, forkCalls_append, forkCalls_forks]
      | false =>
        rw [main_calls_notty _ pid o hne, hc]
        simp [forkCalls, forkCalls_append, forkCalls_forks]
    rw [hforks]
    simp only [List.length_map, List.length_range]
    omega

/-- C10 at the argument `"-3"`: the line announces -3 and there is no `fork`. -/
theorem c10_count_not_positive_witness :
    main ["zombie_simulator", "-3"] 4242 true (fun _ k => 5000 + k) =
      ⟨[Event.getpid 4242, Event.printf "Parent PID: 4242 — creating -3 zombie(s)\n",
        Event.write "Parent PID: 4242 — creating -3 zombie(s)\n", Event.sleep 600,
        Event.exit 0], []⟩ :=
  (c10_count_not_positive "zombie_simulator" [] (-3) 4242 true (fun _ k => 5000 + k)
    (by decide) (by decide)).1 (by decide)

end ZombieSimulator
